import Mathlib

/-!
Verification of the hinted-handoff manager (`db/hints/manager.hh`).

A shallow embedding of the per-shard hint lifecycle engine: the shard
`manager`, its per-endpoint `end_point_hints_manager` (writer admission
state), the replay `sender` (per-file send pass), the `space_watchdog`
(disk audit) and the shard-wide send semaphore.  Machine integers
(`uint64_t`, `size_t`) are modelled as `Nat`: every counter in the code
is monotonically incremented and never comes close to 2^64, so overflow
is not observable.  Futures are modelled by an explicit `hfuture` value;
state-mutating member functions become state-passing Lean functions.

Definitions whose C++ bodies live in the (absent) `manager.cc` are
modelled from the specification and carry a doc comment starting with
`Modelled from the spec:`.  Everything else is translated directly from
the inline bodies in `manager.hh`.
-/

namespace db.hints

/-- `manager::_max_size_of_hints_in_progress = 10 * 1024 * 1024` (manager.hh:384). -/
def _max_size_of_hints_in_progress : Nat := 10 * 1024 * 1024

/-- `manager::_hint_segment_size_in_mb = 32` (manager.hh:385). -/
def _hint_segment_size_in_mb : Nat := 32

/-- `manager::_max_hints_per_ep_size_mb = 128` (manager.hh:386). -/
def _max_hints_per_ep_size_mb : Nat := 128

/-- `manager::_max_hints_send_queue_length = 128` (manager.hh:387). -/
def _max_hints_send_queue_length : Nat := 128

/-- `manager::stats` (manager.hh:48-54): the five shard counters. -/
structure stats where
  size_of_hints_in_progress : Nat
  written : Nat
  errors : Nat
  dropped : Nat
  sent : Nat
deriving DecidableEq, Repr

/-- `end_point_hints_manager`'s `state_set` (manager.hh:232-241): an
`enum_set` over the two-element enum `{can_hint, stopping}`, modelled as
one `Bool` per member.  `set`/`remove`/`contains` become field updates
and field reads. -/
structure state_set where
  can_hint : Bool
  stopping : Bool
deriving DecidableEq, Repr

/-- `manager::end_point_hints_manager` (manager.hh:56-328): per-endpoint
state visible to the claims.  `_key` is the endpoint address (opaque, as
`Nat`), `_hints_store_anchor` the commitlog handle (`none` when not yet
loaded), `_segments_to_replay` the sender's replay queue.  The gate and
mutex have no observable pure-state content and are omitted. -/
structure end_point_hints_manager where
  _key : Nat
  _state : state_set
  _hints_dir : String
  _hints_in_progress : Nat
  _hints_store_anchor : Option Nat
  _segments_to_replay : List String
deriving DecidableEq, Repr

/-- `end_point_hints_manager::can_hint()` (manager.hh:285-287):
`_state.contains(state::can_hint)`. -/
def end_point_hints_manager.can_hint (e : end_point_hints_manager) : Bool :=
  e._state.can_hint

/-- `end_point_hints_manager::allow_hints()` (manager.hh:289-291):
`_state.set(state::can_hint)`. -/
def end_point_hints_manager.allow_hints (e : end_point_hints_manager) :
    end_point_hints_manager :=
  { e with _state := { e._state with can_hint := true } }

/-- `end_point_hints_manager::forbid_hints()` (manager.hh:293-295):
`_state.remove(state::can_hint)`. -/
def end_point_hints_manager.forbid_hints (e : end_point_hints_manager) :
    end_point_hints_manager :=
  { e with _state := { e._state with can_hint := false } }

/-- `end_point_hints_manager::set_stopping()` (manager.hh:297-299):
`_state.set(state::stopping)`. -/
def end_point_hints_manager.set_stopping (e : end_point_hints_manager) :
    end_point_hints_manager :=
  { e with _state := { e._state with stopping := true } }

/-- `end_point_hints_manager::stopping()` (manager.hh:301-303):
`_state.contains(state::stopping)`. -/
def end_point_hints_manager.stopping (e : end_point_hints_manager) : Bool :=
  e._state.stopping

/-- `end_point_hints_manager::hints_in_progress()` (manager.hh:281-283). -/
def end_point_hints_manager.hints_in_progress (e : end_point_hints_manager) : Nat :=
  e._hints_in_progress

/-- A seastar future, restricted to what the claims observe: either
already resolved (`ready`) or not yet (`pending`). -/
inductive hfuture (α : Type) where
  | ready (v : α)
  | pending
deriving DecidableEq, Repr

/-- `db::hints::manager` (manager.hh:46-504): the shard manager state
visible to the claims.  `_ep_managers` is the `unordered_map` from
endpoint key to endpoint manager, as an association list. -/
structure manager where
  _ep_managers : List (Nat × end_point_hints_manager)
  _stats : stats
  _stopping : Bool
deriving DecidableEq, Repr

/-- `manager::find_ep_manager` (manager.hh:489-495): `_ep_managers.find(ep_key)`. -/
def manager.find_ep_manager (m : manager) (ep : Nat) :
    Option end_point_hints_manager :=
  m._ep_managers.lookup ep

/-- `manager::have_ep_manager` (declared manager.hh:486): whether an
endpoint manager exists for `ep`. -/
def manager.have_ep_manager (m : manager) (ep : Nat) : Bool :=
  (m.find_ep_manager ep).isSome

/-- `manager::hints_in_progress_for(ep)` (manager.hh:451-457).  The C++
member is `const noexcept`; its state threading is made explicit by
returning the (necessarily unchanged) manager alongside the result:
`find_ep_manager`, and if absent return 0, else the endpoint manager's
counter. -/
def manager.hints_in_progress_for (m : manager) (ep : Nat) : Nat × manager :=
  match m.find_ep_manager ep with
  | none => (0, m)
  | some e => (e.hints_in_progress, m)

/-- `manager::size_of_hints_in_progress()` (manager.hh:444-446). -/
def manager.size_of_hints_in_progress (m : manager) : Nat :=
  m._stats.size_of_hints_in_progress

/-- `manager::rebalance()` (manager.hh:459-462): `return
make_ready_future<>();`.  The C++ function is `static`, hence cannot
touch manager state; the state-passing form makes that explicit. -/
def manager.rebalance (m : manager) : hfuture Unit × manager :=
  (hfuture.ready (), m)

/-- The state read and written by one `store_hint` call on an endpoint
hint writer: the endpoint manager, the shard statistics, and the queue
of durable appends already enqueued on the store (each recorded by its
mutation size in bytes). -/
structure store_state where
  epm : end_point_hints_manager
  st : stats
  pending_appends : List Nat
deriving DecidableEq, Repr

/-- Modelled from the spec: the body of
`end_point_hints_manager::store_hint` (declared manager.hh:264) is in
the absent `manager.cc`.  Per the spec it returns false and increments
`dropped` when the writer is stopping, `can_hint` is unset, or adding
the mutation size to the total in-flight hint-bytes would exceed
`_max_size_of_hints_in_progress`; otherwise it increments
`hints_in_progress` (endpoint counter and shard gauge) by the mutation
size, enqueues the durable append, and returns true immediately
(without completing the append). -/
def store_hint (s : store_state) (fm_size : Nat) : Bool × store_state :=
  if s.epm.stopping || !s.epm.can_hint ||
      decide (s.st.size_of_hints_in_progress + fm_size
                > _max_size_of_hints_in_progress) then
    (false, { s with st := { s.st with dropped := s.st.dropped + 1 } })
  else
    (true,
      { epm := { s.epm with
          _hints_in_progress := s.epm._hints_in_progress + fm_size },
        st := { s.st with
          size_of_hints_in_progress :=
            s.st.size_of_hints_in_progress + fm_size },
        pending_appends := s.pending_appends ++ [fm_size] })

/-- C1: `store_hint` returns false (incrementing `dropped` and mutating
no other counter) iff the writer is stopping, `can_hint` is unset, or
adding the mutation size to the in-flight hint-bytes would exceed
`_max_size_of_hints_in_progress`; otherwise it increments
`hints_in_progress` by the mutation size, enqueues the durable append,
and returns true without waiting for the append to complete (`written`
and `errors` untouched, the append still pending). -/
theorem store_hint_spec (s : store_state) (n : Nat) :
    ((store_hint s n).1 = false ↔
      (s.epm.stopping = true ∨ s.epm.can_hint = false ∨
        s.st.size_of_hints_in_progress + n > _max_size_of_hints_in_progress)) ∧
    ((store_hint s n).1 = false →
      (store_hint s n).2 =
        { s with st := { s.st with dropped := s.st.dropped + 1 } }) ∧
    ((store_hint s n).1 = true →
      (store_hint s n).2.epm._hints_in_progress
          = s.epm._hints_in_progress + n ∧
      (store_hint s n).2.st.size_of_hints_in_progress
          = s.st.size_of_hints_in_progress + n ∧
      (store_hint s n).2.pending_appends = s.pending_appends ++ [n] ∧
      (store_hint s n).2.st.written = s.st.written ∧
      (store_hint s n).2.st.errors = s.st.errors ∧
      (store_hint s n).2.st.dropped = s.st.dropped ∧
      (store_hint s n).2.st.sent = s.st.sent ∧
      (store_hint s n).2.epm._state = s.epm._state) := by
  unfold store_hint
  split
  next hc =>
    simp only [Bool.or_eq_true, Bool.not_eq_true', decide_eq_true_eq] at hc
    exact ⟨iff_of_true rfl (by tauto), fun _ => rfl, fun h => by simp at h⟩
  next hc =>
    simp only [Bool.or_eq_true, Bool.not_eq_true', decide_eq_true_eq] at hc
    refine ⟨iff_of_false (fun h => by simp at h) ?_, fun h => by simp at h,
      fun _ => ⟨rfl, rfl, rfl, rfl, rfl, rfl, rfl, rfl⟩⟩
    intro hd
    rcases hd with h | h | h
    · exact hc (Or.inl (Or.inl h))
    · exact hc (Or.inl (Or.inr h))
    · exact hc (Or.inr h)

/-- Witness for C1: a writer that is neither stopping nor forbidden and
under the admission cap accepts a 5-byte hint, whereas the iff part of
the theorem confirms the refusal condition is then false. -/
theorem store_hint_spec_witness :
    (store_hint (store_state.mk
        (end_point_hints_manager.mk 1 ⟨true, false⟩ "d" 0 none [])
        ⟨0, 0, 0, 0, 0⟩ []) 5).1 = true := by
  have h := (store_hint_spec (store_state.mk
      (end_point_hints_manager.mk 1 ⟨true, false⟩ "d" 0 none [])
      ⟨0, 0, 0, 0, 0⟩ []) 5).1
  revert h
  decide

/-- One endpoint as seen by the space watchdog: its key, its endpoint
manager, and the sizes (in bytes) of the segment files currently in its
hints directory. -/
structure watch_ep where
  key : Nat
  epm : end_point_hints_manager
  files : List Nat
deriving DecidableEq, Repr

/-- Modelled from the spec: `space_watchdog::scan_one_ep_dir` (declared
manager.hh:374) sums the sizes of the files in one endpoint directory
into `_total_size`; the total over all endpoint directories. -/
def total_size (eps : List watch_ep) : Nat :=
  (eps.map (fun e => e.files.sum)).sum

/-- Modelled from the spec: `space_watchdog::on_timer` (declared
manager.hh:363) is in the absent `manager.cc`.  Per the spec each tick
rescans every endpoint directory; an endpoint with more than one
segment file is pending.  If the summed size exceeds
`max_shard_disk_space_size` (`cap`), `forbid_hints()` is called on
every pending endpoint (endpoints with at most one file are left
alone); otherwise `allow_hints()` is called on every endpoint. -/
def on_timer (cap : Nat) (eps : List watch_ep) : List watch_ep :=
  if total_size eps > cap then
    eps.map (fun e =>
      if e.files.length > 1 then { e with epm := e.epm.forbid_hints } else e)
  else
    eps.map (fun e => { e with epm := e.epm.allow_hints })

theorem mem_zip_map_self {α β : Type} (l : List α) (f : α → β) :
    ∀ p ∈ l.zip (l.map f), p.2 = f p.1 := by
  induction l with
  | nil => intro p hp; simp at hp
  | cons a t ih =>
      intro p hp
      simp only [List.map_cons, List.zip_cons_cons, List.mem_cons] at hp
      rcases hp with h | h
      · rw [h]
      · exact ih p h

/-- C2: after a watchdog tick, if the summed on-disk size of all
endpoint directories exceeds the cap then every endpoint with more than
one segment file has `can_hint = false` while every endpoint with at
most one segment file is never forbidden (its whole state, in
particular a true `can_hint`, is kept); if the total does not exceed
the cap, `allow_hints()` is applied to every endpoint.  Input and
output endpoints are paired positionally via `zip`. -/
theorem on_timer_spec (cap : Nat) (eps : List watch_ep)
    (p : watch_ep × watch_ep) (hp : p ∈ eps.zip (on_timer cap eps)) :
    (total_size eps > cap →
      (p.1.files.length > 1 → p.2.epm.can_hint = false) ∧
      (p.1.files.length ≤ 1 →
        p.2 = p.1 ∧ (p.1.epm.can_hint = true → p.2.epm.can_hint = true))) ∧
    (total_size eps ≤ cap →
      p.2 = { p.1 with epm := p.1.epm.allow_hints } ∧
      p.2.epm.can_hint = true) := by
  unfold on_timer at hp
  by_cases hover : total_size eps > cap
  · simp only [if_pos hover] at hp
    have h2 := mem_zip_map_self eps _ p hp
    constructor
    · intro _
      constructor
      · intro hlen
        rw [h2, if_pos hlen]
        simp [end_point_hints_manager.can_hint, end_point_hints_manager.forbid_hints]
      · intro hlen
        have : ¬ p.1.files.length > 1 := by omega
        rw [h2, if_neg this]
        exact ⟨rfl, fun h => h⟩
    · intro hle
      omega
  · simp only [if_neg hover] at hp
    have h2 := mem_zip_map_self eps _ p hp
    constructor
    · intro h; exact absurd h hover
    · intro _
      refine ⟨h2, ?_⟩
      rw [h2]
      simp [end_point_hints_manager.can_hint, end_point_hints_manager.allow_hints]

/-- The two endpoints (cap 5) used to witness C2: one holding two files
(sizes 10 and 20), one holding a single file (size 3); both currently
allowed to hint. -/
def watchdog_demo_eps : List watch_ep :=
  [watch_ep.mk 1 (end_point_hints_manager.mk 1 ⟨true, false⟩ "a" 0 none []) [10, 20],
   watch_ep.mk 2 (end_point_hints_manager.mk 2 ⟨true, false⟩ "b" 0 none []) [3]]

/-- Witness for C2: on `watchdog_demo_eps` the total 33 exceeds the cap
5, so the two-file endpoint loses `can_hint` and the one-file endpoint
is left untouched (its `can_hint` stays true). -/
theorem on_timer_spec_witness :
    (end_point_hints_manager.mk 1 (state_set.mk false false) "a" 0 none []).can_hint
        = false ∧
    (end_point_hints_manager.mk 2 (state_set.mk true false) "b" 0 none []).can_hint
        = true := by
  have h := on_timer_spec 5 watchdog_demo_eps
    (watch_ep.mk 1 (end_point_hints_manager.mk 1 ⟨true, false⟩ "a" 0 none []) [10, 20],
     watch_ep.mk 1 (end_point_hints_manager.mk 1 ⟨false, false⟩ "a" 0 none []) [10, 20])
    (by decide)
  have h1 := (h.1 (by decide)).1 (by decide)
  have h' := on_timer_spec 5 watchdog_demo_eps
    (watch_ep.mk 2 (end_point_hints_manager.mk 2 ⟨true, false⟩ "b" 0 none []) [3],
     watch_ep.mk 2 (end_point_hints_manager.mk 2 ⟨true, false⟩ "b" 0 none []) [3])
    (by decide)
  have h2 := ((h'.1 (by decide)).2 (by decide)).2 (by decide)
  exact ⟨h1, h2⟩

/-- The observable outcome of processing one hint entry of a segment
during a file-replay pass: the hint expired past its grace period and
was explicitly dropped, it was sent and acknowledged, the send failed
(the replay position is remembered), or the send failed in a way that
lost the replay-position state. -/
inductive hint_outcome where
  | expired
  | send_ok
  | send_fail
  | send_fail_rp_lost
deriving DecidableEq, Repr

/-- `sender::send_one_file_ctx` (manager.hh:83-88), restricted to its
pure content at gate close: the two `send_state` flags
(`segment_replay_failed`, `restart_segment`), the replay positions left
unacknowledged in `rps_set`, and the counters the pass bumped. -/
structure send_one_file_ctx where
  segment_replay_failed : Bool
  restart_segment : Bool
  rps_left : List Nat
  sent : Nat
  dropped : Nat
deriving DecidableEq, Repr

/-- Modelled from the spec: the effect of `sender::send_one_hint`
(declared manager.hh:159, body in the absent `manager.cc`) on the file
context, for one entry `(rp, outcome)`: an expired hint is dropped and
its rp completes; a successful send completes its rp and bumps `sent`;
a failed send sets `segment_replay_failed` and leaves its rp
unacknowledged in the set; a failure that lost the rp state
additionally sets `restart_segment`. -/
def process_one_hint (c : send_one_file_ctx) (e : Nat × hint_outcome) :
    send_one_file_ctx :=
  match e.2 with
  | .expired => { c with dropped := c.dropped + 1 }
  | .send_ok => { c with sent := c.sent + 1 }
  | .send_fail =>
      { c with segment_replay_failed := true, rps_left := c.rps_left ++ [e.1] }
  | .send_fail_rp_lost =>
      { c with segment_replay_failed := true, restart_segment := true }

/-- The file context at the end of one pass over a segment's entries,
starting from a fresh context. -/
def run_one_file (entries : List (Nat × hint_outcome)) : send_one_file_ctx :=
  entries.foldl process_one_hint ⟨false, false, [], 0, 0⟩

/-- The sender state a file-replay pass touches: the replay queue
`_segments_to_replay`, the segment files on disk for this endpoint, and
`_last_not_complete_rp`. -/
structure sender_pass_state where
  segments_to_replay : List String
  files_on_disk : List String
  last_not_complete_rp : Option Nat
deriving DecidableEq, Repr

/-- Whether a hint outcome is a send failure (of either kind). -/
def is_failure (o : hint_outcome) : Bool :=
  match o with
  | .send_fail => true
  | .send_fail_rp_lost => true
  | _ => false

/-- Whether a hint outcome lost the replay-position state. -/
def is_rp_lost (o : hint_outcome) : Bool :=
  match o with
  | .send_fail_rp_lost => true
  | _ => false

/-- Modelled from the spec: `sender::send_one_file` (declared
manager.hh:168, body in the absent `manager.cc`).  After the pass's
gate closes with context `run_one_file entries`: if neither
`segment_replay_failed` nor `restart_segment` is set, the file is
deleted, removed from the replay queue, and true is returned; if only
`segment_replay_failed` is set, the earliest unacknowledged rp is
remembered in `_last_not_complete_rp` and false is returned; if
`restart_segment` is set, `_last_not_complete_rp` is discarded and
false is returned.  In both failure cases the file stays on disk and in
the queue. -/
def send_one_file (sd : sender_pass_state) (fname : String)
    (entries : List (Nat × hint_outcome)) : Bool × sender_pass_state :=
  let c := run_one_file entries
  if !c.segment_replay_failed && !c.restart_segment then
    (true, { sd with
      files_on_disk := sd.files_on_disk.erase fname,
      segments_to_replay := sd.segments_to_replay.erase fname })
  else if !c.restart_segment then
    (false, { sd with last_not_complete_rp := c.rps_left.min? })
  else
    (false, { sd with last_not_complete_rp := none })

theorem foldl_replay_failed (entries : List (Nat × hint_outcome))
    (c : send_one_file_ctx) :
    (entries.foldl process_one_hint c).segment_replay_failed
      = (c.segment_replay_failed || entries.any (fun e => is_failure e.2)) := by
  induction entries generalizing c with
  | nil => simp
  | cons a t ih =>
      obtain ⟨r, o⟩ := a
      rw [List.foldl_cons, ih]
      cases o <;>
        simp [process_one_hint, is_failure, Bool.or_assoc, Bool.or_comm,
          Bool.or_left_comm]

theorem foldl_restart_segment (entries : List (Nat × hint_outcome))
    (c : send_one_file_ctx) :
    (entries.foldl process_one_hint c).restart_segment
      = (c.restart_segment || entries.any (fun e => is_rp_lost e.2)) := by
  induction entries generalizing c with
  | nil => simp
  | cons a t ih =>
      obtain ⟨r, o⟩ := a
      rw [List.foldl_cons, ih]
      cases o <;>
        simp [process_one_hint, is_rp_lost, Bool.or_assoc, Bool.or_comm,
          Bool.or_left_comm]

/-- C3: `send_one_file(fname)` returns true, deletes the file, and
removes it from the replay queue iff at the end of the pass neither
`segment_replay_failed` nor `restart_segment` is set; and when it does
delete the file, every hint the segment contained was acknowledged by
the send path (`send_ok`) or explicitly dropped (`expired`).  When it
returns false the file stays on disk and in the replay queue. -/
theorem send_one_file_spec (sd : sender_pass_state) (fname : String)
    (entries : List (Nat × hint_outcome)) :
    ((send_one_file sd fname entries).1 = true ↔
      ((run_one_file entries).segment_replay_failed = false ∧
        (run_one_file entries).restart_segment = false)) ∧
    ((send_one_file sd fname entries).1 = true →
      (send_one_file sd fname entries).2.files_on_disk
          = sd.files_on_disk.erase fname ∧
      (send_one_file sd fname entries).2.segments_to_replay
          = sd.segments_to_replay.erase fname ∧
      ∀ e ∈ entries, e.2 = hint_outcome.send_ok ∨ e.2 = hint_outcome.expired) ∧
    ((send_one_file sd fname entries).1 = false →
      (send_one_file sd fname entries).2.files_on_disk = sd.files_on_disk ∧
      (send_one_file sd fname entries).2.segments_to_replay
          = sd.segments_to_replay) := by
  have hflag : (run_one_file entries).segment_replay_failed
      = entries.any (fun e => is_failure e.2) := by
    rw [run_one_file, foldl_replay_failed]
    simp
  by_cases hf : (run_one_file entries).segment_replay_failed = false
  · by_cases hr : (run_one_file entries).restart_segment = false
    · have hres : send_one_file sd fname entries
          = (true, { sd with
              files_on_disk := sd.files_on_disk.erase fname,
              segments_to_replay := sd.segments_to_replay.erase fname }) := by
        simp [send_one_file, hf, hr]
      rw [hres]
      refine ⟨iff_of_true rfl ⟨hf, hr⟩, fun _ => ⟨rfl, rfl, ?_⟩,
        fun h => by simp at h⟩
      intro e he
      cases he2 : e.2 with
      | expired => exact Or.inr rfl
      | send_ok => exact Or.inl rfl
      | send_fail =>
          have hany : entries.any (fun e => is_failure e.2) = true :=
            List.any_eq_true.mpr ⟨e, he, by simp [is_failure, he2]⟩
          rw [hflag.symm.trans hf] at hany
          exact absurd hany (by simp)
      | send_fail_rp_lost =>
          have hany : entries.any (fun e => is_failure e.2) = true :=
            List.any_eq_true.mpr ⟨e, he, by simp [is_failure, he2]⟩
          rw [hflag.symm.trans hf] at hany
          exact absurd hany (by simp)
    · have hrt : (run_one_file entries).restart_segment = true := by
        revert hr
        cases (run_one_file entries).restart_segment <;> simp
      have hres : send_one_file sd fname entries
          = (false, { sd with last_not_complete_rp := none }) := by
        simp [send_one_file, hf, hrt]
      rw [hres]
      refine ⟨iff_of_false (by simp) ?_, fun h => by simp at h,
        fun _ => ⟨rfl, rfl⟩⟩
      intro hc
      rw [hrt] at hc
      exact absurd hc.2 (by simp)
  · have hft : (run_one_file entries).segment_replay_failed = true := by
      revert hf
      cases (run_one_file entries).segment_replay_failed <;> simp
    by_cases hr : (run_one_file entries).restart_segment = false
    · have hres : send_one_file sd fname entries
          = (false, { sd with
              last_not_complete_rp := (run_one_file entries).rps_left.min? }) := by
        simp [send_one_file, hft, hr]
      rw [hres]
      refine ⟨iff_of_false (by simp) ?_, fun h => by simp at h,
        fun _ => ⟨rfl, rfl⟩⟩
      intro hc
      rw [hft] at hc
      exact absurd hc.1 (by simp)
    · have hrt : (run_one_file entries).restart_segment = true := by
        revert hr
        cases (run_one_file entries).restart_segment <;> simp
      have hres : send_one_file sd fname entries
          = (false, { sd with last_not_complete_rp := none }) := by
        simp [send_one_file, hft, hrt]
      rw [hres]
      refine ⟨iff_of_false (by simp) ?_, fun h => by simp at h,
        fun _ => ⟨rfl, rfl⟩⟩
      intro hc
      rw [hrt] at hc
      exact absurd hc.2 (by simp)

/-- Witness for C3: a three-entry segment in which every hint was sent
or expired is deleted and removed from the replay queue, with the pass
reporting success. -/
theorem send_one_file_spec_witness :
    (send_one_file (sender_pass_state.mk ["s1", "s2"] ["s1", "s2"] none) "s1"
      [(0, hint_outcome.send_ok), (1, hint_outcome.expired),
       (2, hint_outcome.send_ok)]).1 = true ∧
    (send_one_file (sender_pass_state.mk ["s1", "s2"] ["s1", "s2"] none) "s1"
      [(0, hint_outcome.send_ok), (1, hint_outcome.expired),
       (2, hint_outcome.send_ok)]).2.files_on_disk = ["s2"] := by
  have h := send_one_file_spec (sender_pass_state.mk ["s1", "s2"] ["s1", "s2"] none)
    "s1" [(0, hint_outcome.send_ok), (1, hint_outcome.expired),
          (2, hint_outcome.send_ok)]
  have h1 := h.1.mpr (by decide)
  have h2 := (h.2.1 h1).1
  refine ⟨h1, ?_⟩
  rw [h2]
  decide

/-- The state of one file-replay pass as seen by the in-flight bound:
the replay positions of entries not yet dispatched and the in-flight
set `rps_set` of `send_one_file_ctx` (manager.hh:86). -/
structure file_pass_state where
  remaining : List Nat
  rps_set : Finset Nat
deriving DecidableEq

/-- Modelled from the spec: the dispatch loop of `sender::send_one_file`
(body in the absent `manager.cc`).  `dispatch` hands the next entry to a
detached `send_one_hint` task, inserting its rp into `rps_set`; it is
guarded by the queue-length check — when dispatching would exceed
`_max_hints_send_queue_length` the enumerator waits for drains before
continuing, so a dispatch only fires while the set is strictly below
the bound.  `drain` is the completion of an in-flight hint, which
removes its rp. -/
inductive pass_step : file_pass_state → file_pass_state → Prop where
  | dispatch (r : Nat) (rest : List Nat) (s : Finset Nat)
      (h : s.card < _max_hints_send_queue_length) :
      pass_step ⟨r :: rest, s⟩ ⟨rest, insert r s⟩
  | drain (r : Nat) (rem : List Nat) (s : Finset Nat) (h : r ∈ s) :
      pass_step ⟨rem, s⟩ ⟨rem, s.erase r⟩

/-- The states a file-replay pass can reach: it starts with the
segment's entries pending and an empty in-flight set, and evolves by
`pass_step`. -/
inductive pass_reachable : file_pass_state → Prop where
  | init (es : List Nat) : pass_reachable ⟨es, ∅⟩
  | step {s t : file_pass_state} :
      pass_reachable s → pass_step s t → pass_reachable t

/-- C4: in every reachable state of a file-replay pass, the in-flight
set `rps_set` holds at most `_max_hints_send_queue_length` (128)
replay positions. -/
theorem rps_set_bounded (s : file_pass_state) (h : pass_reachable s) :
    s.rps_set.card ≤ _max_hints_send_queue_length := by
  induction h with
  | init es => simp [_max_hints_send_queue_length]
  | step hr hs ih =>
      cases hs with
      | dispatch r rest t hlt =>
          calc (insert r t).card ≤ t.card + 1 := Finset.card_insert_le r t
            _ ≤ _max_hints_send_queue_length := hlt
      | drain r rem t hm =>
          exact le_trans (Finset.card_erase_le) ih

/-- Witness for C4: the pass state reached by dispatching the first of
two entries satisfies the bound. -/
theorem rps_set_bounded_witness :
    pass_reachable ⟨[8], insert 7 ∅⟩ ∧
    (⟨[8], insert 7 (∅ : Finset Nat)⟩ : file_pass_state).rps_set.card
      ≤ _max_hints_send_queue_length := by
  have hr : pass_reachable ⟨[8], insert 7 ∅⟩ :=
    pass_reachable.step (pass_reachable.init [7, 8])
      (pass_step.dispatch 7 [8] ∅ (by decide))
  exact ⟨hr, rps_set_bounded _ hr⟩

/-- The shard send semaphore (`manager::_send_limiter`, manager.hh:403)
together with the budgets currently held by in-flight send hints:
`available` counts the free units, `in_flight` the granted budgets (in
bytes, one per hint being sent). -/
structure sem_state where
  available : Nat
  in_flight : List Nat
deriving DecidableEq, Repr

/-- Modelled from the spec: the per-entry budget acquired from the
shard send semaphore — the mutation's byte size clamped to at least
`_min_send_hint_budget` (manager.hh:402). -/
def hint_budget (mut_size min_send_hint_budget : Nat) : Nat :=
  max mut_size min_send_hint_budget

/-- Modelled from the spec: the semaphore protocol.  `acquire` grants a
budget only when enough units are available (otherwise the requester
suspends, i.e. no transition fires); `release` returns a held budget. -/
inductive sem_step : sem_state → sem_state → Prop where
  | acquire (s : sem_state) (b : Nat) (h : b ≤ s.available) :
      sem_step s ⟨s.available - b, b :: s.in_flight⟩
  | release (s : sem_state) (b : Nat) (h : b ∈ s.in_flight) :
      sem_step s ⟨s.available + b, s.in_flight.erase b⟩

/-- The semaphore states reachable on a shard whose send limiter was
constructed with `cap = _max_send_in_flight_memory` units and no hint
in flight. -/
inductive sem_reachable (cap : Nat) : sem_state → Prop where
  | init : sem_reachable cap ⟨cap, []⟩
  | step {s t : sem_state} :
      sem_reachable cap s → sem_step s t → sem_reachable cap t

theorem sem_reachable_invariant (cap : Nat) (s : sem_state)
    (h : sem_reachable cap s) : s.available + s.in_flight.sum = cap := by
  induction h with
  | init => simp
  | @step u t hr hs ih =>
      cases hs with
      | acquire b hb =>
          simp only [List.sum_cons]
          omega
      | release b hb =>
          have hperm : u.in_flight.Perm (b :: u.in_flight.erase b) :=
            List.perm_cons_erase hb
          have hsum : u.in_flight.sum = b + (u.in_flight.erase b).sum := by
            rw [hperm.sum_eq, List.sum_cons]
          show u.available + b + (u.in_flight.erase b).sum = cap
          omega

/-- Modelled from the spec: the semaphore effect of one full
`send_one_hint` run (declared manager.hh:159, body in the absent
`manager.cc`) with budget `b`: the budget is acquired before the entry
is dispatched and released on every completion path — grace expiry,
successful send, transient failure, failure that lost the rp state. -/
def send_one_hint_sem (s : sem_state) (b : Nat) (o : hint_outcome) : sem_state :=
  let s1 : sem_state := ⟨s.available - b, b :: s.in_flight⟩
  match o with
  | .expired => ⟨s1.available + b, s1.in_flight.erase b⟩
  | .send_ok => ⟨s1.available + b, s1.in_flight.erase b⟩
  | .send_fail => ⟨s1.available + b, s1.in_flight.erase b⟩
  | .send_fail_rp_lost => ⟨s1.available + b, s1.in_flight.erase b⟩

/-- C5: in every reachable semaphore state the total of in-flight send
budgets — an upper bound on the in-flight hint bytes, since each
entry's budget is its mutation size clamped up to
`_min_send_hint_budget` — is at most `_max_send_in_flight_memory`
(`cap`); and `send_one_hint` releases its budget on every completion
path, restoring the semaphore state it started from. -/
theorem send_in_flight_memory_bounded (cap : Nat) (s : sem_state)
    (h : sem_reachable cap s) :
    s.in_flight.sum ≤ cap ∧
    (∀ mut_size min_b : Nat, mut_size ≤ hint_budget mut_size min_b) ∧
    (∀ b : Nat, ∀ o : hint_outcome, b ≤ s.available →
      send_one_hint_sem s b o = s) := by
  refine ⟨?_, fun m mb => Nat.le_max_left m mb, ?_⟩
  · have := sem_reachable_invariant cap s h
    omega
  · intro b o hb
    have hsub : s.available - b + b = s.available := Nat.sub_add_cancel hb
    cases o <;>
      simp [send_one_hint_sem, hsub, List.erase_cons_head]

/-- Witness for C5: on a fresh semaphore with 10 units, no budget is in
flight (0 ≤ 10), a 5-byte mutation's budget is at least 5, and a
successful `send_one_hint` with budget 4 leaves the semaphore exactly
as it found it. -/
theorem send_in_flight_memory_bounded_witness :
    (sem_state.mk 10 []).in_flight.sum ≤ 10 ∧
    5 ≤ hint_budget 5 3 ∧
    send_one_hint_sem (sem_state.mk 10 []) 4 hint_outcome.send_ok
      = sem_state.mk 10 [] := by
  have h := send_in_flight_memory_bounded 10 (sem_state.mk 10 [])
    sem_reachable.init
  exact ⟨h.1, h.2.1 5 3, h.2.2 4 hint_outcome.send_ok (by decide)⟩

/-- The write consistency level used when replaying a hint. -/
inductive consistency_level where
  | one
  | any
deriving DecidableEq, Repr

/-- How a replayed mutation is dispatched: directly to one endpoint, or
through the coordinator write path ("from scratch"). -/
inductive send_action where
  | direct (ep : Nat) (cl : consistency_level)
  | mutate_from_scratch (cl : consistency_level)
deriving DecidableEq, Repr

/-- Modelled from the spec: `sender::do_send_one_mutation` (declared
manager.hh:195, body in the absent `manager.cc`).  If the original
destination endpoint is still among the mutation's current natural
endpoints, the mutation is sent directly to that endpoint alone with
consistency ONE; otherwise it is executed from scratch on the
coordinator write path with consistency ANY. -/
def do_send_one_mutation (ep : Nat) (natural_endpoints : List Nat) : send_action :=
  if ep ∈ natural_endpoints then
    send_action.direct ep consistency_level.one
  else
    send_action.mutate_from_scratch consistency_level.any

/-- C6: every replayed hint takes exactly one of two dispatch paths —
direct delivery to the original destination alone with consistency ONE
when it is still a natural endpoint, and the coordinator write path
with consistency ANY otherwise. -/
theorem do_send_one_mutation_dispatch (ep : Nat) (natural_endpoints : List Nat) :
    (ep ∈ natural_endpoints →
      do_send_one_mutation ep natural_endpoints
        = send_action.direct ep consistency_level.one) ∧
    (ep ∉ natural_endpoints →
      do_send_one_mutation ep natural_endpoints
        = send_action.mutate_from_scratch consistency_level.any) ∧
    (do_send_one_mutation ep natural_endpoints
        = send_action.direct ep consistency_level.one ↔
      ¬ do_send_one_mutation ep natural_endpoints
        = send_action.mutate_from_scratch consistency_level.any) := by
  unfold do_send_one_mutation
  by_cases h : ep ∈ natural_endpoints <;> simp [h]

/-- Witness for C6: endpoint 1 is still natural in `[1, 2]` and gets a
direct CL=ONE send; endpoint 3 is not and goes through the coordinator
with CL=ANY. -/
theorem do_send_one_mutation_dispatch_witness :
    do_send_one_mutation 1 [1, 2]
      = send_action.direct 1 consistency_level.one ∧
    do_send_one_mutation 3 [1, 2]
      = send_action.mutate_from_scratch consistency_level.any :=
  ⟨(do_send_one_mutation_dispatch 1 [1, 2]).1 (by decide),
   (do_send_one_mutation_dispatch 3 [1, 2]).2.1 (by decide)⟩

/-- C7: the shard manager's compile-time configuration constants equal
the spec's configured values: `_max_size_of_hints_in_progress` is
exactly 10 MiB (10485760 bytes), `_hint_segment_size_in_mb` is 32,
`_max_hints_per_ep_size_mb` is 128, and `_max_hints_send_queue_length`
is 128. -/
theorem config_constants_values :
    _max_size_of_hints_in_progress = 10485760 ∧
    _hint_segment_size_in_mb = 32 ∧
    _max_hints_per_ep_size_mb = 128 ∧
    _max_hints_send_queue_length = 128 := by
  refine ⟨?_, rfl, rfl, rfl⟩
  decide

/-- C8: for every manager state, `rebalance()` returns an
already-resolved ready future and leaves every observable part of the
state unchanged. -/
theorem rebalance_noop (m : manager) :
    m.rebalance = (hfuture.ready (), m) := rfl

/-- C9: for every endpoint for which no endpoint manager exists on the
shard, `hints_in_progress_for(endpoint)` returns 0 and does not create
an endpoint manager or otherwise modify the manager's state. -/
theorem hints_in_progress_for_absent (m : manager) (ep : Nat)
    (h : m.find_ep_manager ep = none) :
    (m.hints_in_progress_for ep).1 = 0 ∧
    (m.hints_in_progress_for ep).2 = m := by
  simp [manager.hints_in_progress_for, h]

/-- Witness for C9: a manager with an empty endpoint-manager map
returns 0 for endpoint 7 and is left unchanged. -/
theorem hints_in_progress_for_absent_witness :
    ((manager.mk [] ⟨0, 0, 0, 0, 0⟩ false).hints_in_progress_for 7).1 = 0 ∧
    ((manager.mk [] ⟨0, 0, 0, 0, 0⟩ false).hints_in_progress_for 7).2 =
      manager.mk [] ⟨0, 0, 0, 0, 0⟩ false :=
  hints_in_progress_for_absent (manager.mk [] ⟨0, 0, 0, 0, 0⟩ false) 7 rfl

/-- C10: for every endpoint-manager state, `allow_hints()` makes
`can_hint()` return true, `forbid_hints()` makes it return false, and
neither call changes the stopping flag or any other field (counter,
store handle, replay queue, key, directory); both are idempotent. -/
theorem allow_forbid_hints_frame (e : end_point_hints_manager) :
    e.allow_hints.can_hint = true ∧
    e.forbid_hints.can_hint = false ∧
    e.allow_hints.stopping = e.stopping ∧
    e.allow_hints._hints_in_progress = e._hints_in_progress ∧
    e.allow_hints._hints_store_anchor = e._hints_store_anchor ∧
    e.allow_hints._segments_to_replay = e._segments_to_replay ∧
    e.allow_hints._key = e._key ∧
    e.allow_hints._hints_dir = e._hints_dir ∧
    e.forbid_hints.stopping = e.stopping ∧
    e.forbid_hints._hints_in_progress = e._hints_in_progress ∧
    e.forbid_hints._hints_store_anchor = e._hints_store_anchor ∧
    e.forbid_hints._segments_to_replay = e._segments_to_replay ∧
    e.forbid_hints._key = e._key ∧
    e.forbid_hints._hints_dir = e._hints_dir ∧
    e.allow_hints.allow_hints = e.allow_hints ∧
    e.forbid_hints.forbid_hints = e.forbid_hints := by
  refine ⟨rfl, rfl, rfl, rfl, rfl, rfl, rfl, rfl, rfl, rfl, rfl, rfl, rfl, rfl, rfl, rfl⟩

end db.hints
